import Mathlib

/-!
Verification of `src/hamlib/qiskit/hamlib_utils.py` (QC-App-Oriented-Benchmarks).

Shallow embedding conventions:
* Python `str` and `bytes` are both modelled as Lean `String` (the source decodes
  bytes before use and encodes at the end; the decode/encode pair is the identity
  on the texts involved, so the distinction carries no information here).
* Character classes follow the ASCII behaviour of the source's regexes and of
  `str.strip` / `str.split`: whitespace is the ASCII set, `\d` is `0-9`.
* Python `float` values are modelled exactly: an exact rational for finite
  literals, plus infinity and nan markers (a string literal determines its float
  exactly up to rounding; only ordering and parse success/failure are used here,
  and on the inputs appearing below rounding never affects ordering).
* Fallible operations (Python exceptions) are modelled with `Option`, `none`
  meaning an exception propagates to the caller.
* Python `dict` is modelled as an association list with unique keys, insertion
  ordered, assignment overwriting in place (CPython 3.7+ semantics); Python
  `set` is modelled as an insertion-ordered duplicate-free list.
-/

/-- ASCII whitespace, the character set of `str.strip()`, `str.split()` and the
regex class `\s` on the ASCII inputs handled here. -/
def isPyWs (c : Char) : Bool :=
  c == ' ' || c == '\t' || c == '\n' || c == '\r' || c == '\x0b' || c == '\x0c'

/-- Python `s.split(sep)` for a one-character separator: split at every
occurrence, keeping empty pieces (accumulator holds the current piece reversed). -/
def splitOnCharAux : List Char → Char → List Char → List (List Char)
  | [], _, acc => [acc.reverse]
  | c :: rest, sep, acc =>
    if c == sep then acc.reverse :: splitOnCharAux rest sep []
    else splitOnCharAux rest sep (c :: acc)

/-- Python `s.strip()` on a character list. -/
def pyStripL (cs : List Char) : List Char :=
  ((cs.dropWhile isPyWs).reverse.dropWhile isPyWs).reverse

/-- Python `s.strip()`. -/
def pyStrip (s : String) : String :=
  String.mk (pyStripL s.data)

/-- Python `s.split()` with no argument: split on whitespace runs, dropping
empty pieces (the `tok` accumulator holds the current token reversed). -/
def splitWsAux : List Char → List Char → List String
  | [], [] => []
  | [], tok => [String.mk tok.reverse]
  | c :: rest, tok =>
    if isPyWs c then
      match tok with
      | [] => splitWsAux rest []
      | _ => String.mk tok.reverse :: splitWsAux rest []
    else splitWsAux rest (c :: tok)

/-- Python `s.split()` with no argument. -/
def pySplitWs (s : String) : List String :=
  splitWsAux s.data []

/-- Python dict assignment `d[k] = v`: overwrite in place if the key exists
(keeping its insertion position), else append. -/
def pyDictSet {κ α : Type} [DecidableEq κ] : List (κ × α) → κ → α → List (κ × α)
  | [], k, v => [(k, v)]
  | p :: rest, k, v =>
    if p.1 = k then (p.1, v) :: rest else p :: pyDictSet rest k v

/-- Python `d.get(k)`: the value at the (unique) occurrence of `k`, if any. -/
def pyDictGet? {κ α : Type} [DecidableEq κ] : List (κ × α) → κ → Option α
  | [], _ => none
  | p :: rest, k => if p.1 = k then some p.2 else pyDictGet? rest k

/-- Python `'sep'.join(pieces)`. -/
def joinSep (sep : String) : List String → String
  | [] => ""
  | [x] => x
  | x :: xs => x ++ sep ++ joinSep sep xs

/-- Lazy group `(.*?)` followed by a literal `]`: the characters up to the first
`]`, failing if a newline (which `.` does not match) or the end of input comes
first.  Returns the group and the rest of the input after the `]`. -/
def scanToRBracket : List Char → Option (List Char × List Char)
  | [] => none
  | ']' :: r => some ([], r)
  | '\n' :: _ => none
  | c :: r => (scanToRBracket r).map (fun p => (c :: p.1, p.2))

/-- One attempted match of the detector regex
`\(\s*-?\d+(\.\d+)?(\+|\-)?\d*?j?\s*\)\s*\[.*?\]` anchored at the head of `cs`.
Each quantifier is resolved deterministically: a greedy `\s*`/`\d+` run followed
by a mandatory non-member character can only succeed on the maximal run, the
optional groups commit whenever their first character is present (the skip
alternative then fails at once on that same character), and the lazy `\d*?`
must consume the whole digit run to reach a non-digit. -/
def matchCanonicalAt (cs : List Char) : Bool :=
  match cs with
  | '(' :: r0 =>
    let r1 := r0.dropWhile isPyWs
    let r2 := match r1 with
              | '-' :: r => r
              | _ => r1
    let ds := r2.takeWhile Char.isDigit
    let r3 := r2.dropWhile Char.isDigit
    if ds.isEmpty then false
    else
      let fr : Option (List Char) :=
        match r3 with
        | '.' :: rr =>
          if (rr.takeWhile Char.isDigit).isEmpty then none
          else some (rr.dropWhile Char.isDigit)
        | _ => some r3
      match fr with
      | none => false
      | some r4 =>
        let r5 := match r4 with
                  | '+' :: r => r
                  | '-' :: r => r
                  | _ => r4
        let r6 := r5.dropWhile Char.isDigit
        let r7 := match r6 with
                  | 'j' :: r => r
                  | _ => r6
        match r7.dropWhile isPyWs with
        | ')' :: r9 =>
          (match r9.dropWhile isPyWs with
           | '[' :: r11 => (scanToRBracket r11).isSome
           | _ => false)
        | _ => false
  | _ => false

/-- `re.search` of the detector regex: try every start position, left to right. -/
def searchCanonical : List Char → Bool
  | [] => false
  | c :: rest => matchCanonicalAt (c :: rest) || searchCanonical rest

/-- `needs_normalization` (hamlib_utils.py:39-55): "No" iff the data contains a
substring matching the canonical-form regex, "Yes" otherwise. -/
def needs_normalization (data : String) : String :=
  if searchCanonical data.data then "No" else "Yes"

/-- The tail of a `re.match` of `(\S+)\s*\[(.*?)\]` after group 1: a maximal
whitespace run (`\s*` backtracking cannot help because `[` is not whitespace),
a literal `[`, and the lazy group up to the first `]` with no newline. -/
def matchNormCompl (suf : List Char) : Option String :=
  match suf.dropWhile isPyWs with
  | '[' :: r2 => (scanToRBracket r2).map (fun p => String.mk p.1)
  | _ => none

/-- Backtracking over group 1 of `re.match(r'(\S+)\s*\[(.*?)\]', term)`:
`pre` holds the current (reversed) candidate for the greedy `\S+`, longest
first; on failure the last character moves back onto the suffix. -/
def tryG1 : List Char → List Char → Option (String × String)
  | [], _ => none
  | c :: pre, suf =>
    match matchNormCompl suf with
    | some g2 => some (String.mk (c :: pre).reverse, g2)
    | none => tryG1 pre (c :: suf)

/-- `re.match(r'(\S+)\s*\[(.*?)\]', term)`, returning (group 1, group 2). -/
def matchCoeffOps (term : List Char) : Option (String × String) :=
  let p := term.takeWhile (fun c => !(isPyWs c))
  let rest := term.dropWhile (fun c => !(isPyWs c))
  tryG1 p.reverse rest

/-- `normalize_data_format` (hamlib_utils.py:57-80): split on every `+`, strip
each piece, keep the non-empty pieces matching `(\S+)\s*\[(.*?)\]`, and emit
them as `(coeff) [ops]` (with the operator text stripped) joined by ` +\n`. -/
def normalize_data_format (data : String) : String :=
  let terms := splitOnCharAux data.data '+' []
  let normalized := terms.filterMap (fun termCs =>
    let t := pyStripL termCs
    if t.isEmpty then none
    else (matchCoeffOps t).map (fun p =>
      "(" ++ p.1 ++ ") [" ++ pyStrip p.2 ++ "]"))
  joinSep " +\n" normalized

/-- Modelled from the spec: `normalize_if_needed` (spec section 6) is not a
function of hamlib_utils.py; it is the caller-facing composition of the Format
Detector and the Format Normalizer, returning the blob unchanged when the
detector reports canonical and normalizing it otherwise. -/
def normalize_if_needed (data : String) : String :=
  if needs_normalization data = "No" then data else normalize_data_format data

/-- One attempted match of `\(([^)]+)\)\s*\[(.*?)\]` whose `\(` already matched:
group 1 is the maximal run of non-`)` characters (shorter candidates would need
`\)` to match a non-`)` character, so greedy backtracking never helps), it must
be non-empty and followed by `)`, maximal whitespace, `[`, and the lazy group up
to the first `]` with no newline.  Returns both groups and the rest of the
input after the match. -/
def matchParenTerm (cs : List Char) : Option (String × String × List Char) :=
  let g1 := cs.takeWhile (fun c => !(c == ')'))
  match cs.dropWhile (fun c => !(c == ')')) with
  | ')' :: r2 =>
    if g1.isEmpty then none
    else
      match r2.dropWhile isPyWs with
      | '[' :: r4 =>
        (scanToRBracket r4).map (fun p => (String.mk g1, String.mk p.1, p.2))
      | _ => none
  | _ => none

/-- `re.findall(r'\(([^)]+)\)\s*\[(.*?)\]', data)`: scan left to right, at each
position try a match; on success record the groups and continue after the match,
otherwise advance one character.  The fuel argument (initially one more than the
input length) only certifies termination: every step consumes at least one
character, so it is never exhausted. -/
def findTermsAux : Nat → List Char → List (String × String)
  | 0, _ => []
  | _, [] => []
  | fuel + 1, c :: rest =>
    if c == '(' then
      match matchParenTerm rest with
      | some (g1, g2, rest2) => (g1, g2) :: findTermsAux fuel rest2
      | none => findTermsAux fuel rest
    else findTermsAux fuel rest

/-- All matches of `\(([^)]+)\)\s*\[(.*?)\]` in `data`, in order. -/
def findTerms (data : String) : List (String × String) :=
  findTermsAux (data.data.length + 1) data.data

/-- A Python float value as determined exactly by a literal: an exact rational,
a signed infinity, or nan. -/
inductive PyFloat : Type where
  | finite : ℚ → PyFloat
  | posInf : PyFloat
  | negInf : PyFloat
  | nan : PyFloat
deriving DecidableEq

/-- Underscore pre-validation shared by Python `float()` and `complex()`
(PEP 515): every `_` must be directly preceded and followed by a digit; valid
underscores are removed before the core parse.  `prev` is the previous
character (initially a blank). -/
def scrubUnderscores : List Char → Char → Option (List Char)
  | [], prev => if prev == '_' then none else some []
  | c :: rest, prev =>
    if c == '_' then
      if prev.isDigit then scrubUnderscores rest '_' else none
    else if prev == '_' && !c.isDigit then none
    else (scrubUnderscores rest c).map (fun l => c :: l)

/-- Numeric value of a run of decimal digits. -/
def digitsVal (ds : List Char) : Nat :=
  ds.foldl (fun a c => 10 * a + (c.toNat - 48)) 0

/-- Case-insensitive literal match, returning the rest of the input. -/
def matchCI : List Char → List Char → Option (List Char)
  | [], cs => some cs
  | _ :: _, [] => none
  | l :: ls, c :: cs => if c.toLower == l then matchCI ls cs else none

/-- Optional exponent suffix `[eE][+-]?digits` of a float literal; if the `e`
is not followed by at least one digit the suffix is not consumed (as in C
`strtod`, which backs up to the end of the mantissa). -/
def expPart (m : ℚ) (cs : List Char) : ℚ × List Char :=
  match cs with
  | e :: rest =>
    if e == 'e' || e == 'E' then
      let signed : Bool × List Char :=
        match rest with
        | '+' :: r => (true, r)
        | '-' :: r => (false, r)
        | _ => (true, rest)
      let eds := signed.2.takeWhile Char.isDigit
      if eds.isEmpty then (m, cs)
      else
        (if signed.1 then m * (10 : ℚ) ^ digitsVal eds
         else m / (10 : ℚ) ^ digitsVal eds,
         signed.2.dropWhile Char.isDigit)
    else (m, cs)
  | [] => (m, [])

/-- Unsigned decimal significand with optional fraction and exponent
(`digits[.digits]`, `.digits`, at least one digit required), returning the
exact value and the rest of the input. -/
def floatSig (cs : List Char) : Option (ℚ × List Char) :=
  let ids := cs.takeWhile Char.isDigit
  let r1 := cs.dropWhile Char.isDigit
  match r1 with
  | '.' :: r2 =>
    let fds := r2.takeWhile Char.isDigit
    if ids.isEmpty && fds.isEmpty then none
    else
      some (expPart ((digitsVal (ids ++ fds) : ℚ) / (10 : ℚ) ^ fds.length)
        (r2.dropWhile Char.isDigit))
  | _ =>
    if ids.isEmpty then none
    else some (expPart (digitsVal ids : ℚ) r1)

/-- Leading float literal of a character run: optional sign, then
case-insensitive `inf`/`infinity`/`nan` or a decimal significand.  No
whitespace skipping; returns the value and the rest of the input.  This is the
numeric core shared by Python `float()` and by the component parses inside
`complex()`. -/
def floatLead (cs : List Char) : Option (PyFloat × List Char) :=
  let signed : Bool × List Char :=
    match cs with
    | '+' :: r => (false, r)
    | '-' :: r => (true, r)
    | _ => (false, cs)
  match matchCI ['i', 'n', 'f'] signed.2 with
  | some r2 =>
    let r3 := (matchCI ['i', 'n', 'i', 't', 'y'] r2).getD r2
    some (if signed.1 then PyFloat.negInf else PyFloat.posInf, r3)
  | none =>
    match matchCI ['n', 'a', 'n'] signed.2 with
    | some r2 => some (PyFloat.nan, r2)
    | none =>
      (floatSig signed.2).map (fun p =>
        (PyFloat.finite (if signed.1 then -p.1 else p.1), p.2))

/-- Python `float(s)`: underscore pre-validation, surrounding whitespace
allowed, then exactly one float literal.  `none` models `ValueError`. -/
def pyFloat? (s : String) : Option PyFloat := do
  let cs ← scrubUnderscores s.data ' '
  let (v, r) ← floatLead (cs.dropWhile isPyWs)
  if (r.dropWhile isPyWs).isEmpty then some v else none

/-- Second component of a complex literal after a leading float and a sign:
either `<signed-float>j` (`signed` starts at the sign) or the bare `<sign>j`
with an implied magnitude of one (`rest` starts after the sign). -/
def complexSecond (x : PyFloat) (pos : Bool) (signed rest : List Char) :
    Option (PyFloat × PyFloat × List Char) :=
  match floatLead signed with
  | some (y, r2) =>
    match r2 with
    | 'j' :: r3 => some (x, y, r3)
    | 'J' :: r3 => some (x, y, r3)
    | _ => none
  | none =>
    match rest with
    | 'j' :: r3 => some (x, PyFloat.finite (if pos then 1 else -1), r3)
    | 'J' :: r3 => some (x, PyFloat.finite (if pos then 1 else -1), r3)
    | _ => none

/-- Core of a complex literal (CPython `complex_from_string_inner`): one of
`<float>`, `<float>j`, `<float><signed-float>j`, `<float><sign>j`, `<sign>j`,
`j`.  Returns (real, imaginary, rest). -/
def complexCore (cs : List Char) : Option (PyFloat × PyFloat × List Char) :=
  match floatLead cs with
  | some (z, r1) =>
    match r1 with
    | '+' :: rt => complexSecond z true r1 rt
    | '-' :: rt => complexSecond z false r1 rt
    | 'j' :: r2 => some (PyFloat.finite 0, z, r2)
    | 'J' :: r2 => some (PyFloat.finite 0, z, r2)
    | _ => some (z, PyFloat.finite 0, r1)
  | none =>
    match cs with
    | '+' :: 'j' :: r => some (PyFloat.finite 0, PyFloat.finite 1, r)
    | '+' :: 'J' :: r => some (PyFloat.finite 0, PyFloat.finite 1, r)
    | '-' :: 'j' :: r => some (PyFloat.finite 0, PyFloat.finite (-1), r)
    | '-' :: 'J' :: r => some (PyFloat.finite 0, PyFloat.finite (-1), r)
    | 'j' :: r => some (PyFloat.finite 0, PyFloat.finite 1, r)
    | 'J' :: r => some (PyFloat.finite 0, PyFloat.finite 1, r)
    | _ => none

/-- Python `complex(s)`: underscore pre-validation, optional surrounding
whitespace and parentheses around the core literal.  `none` models
`ValueError`; a pair (real, imaginary) models the complex value. -/
def pyComplex? (s : String) : Option (PyFloat × PyFloat) := do
  let cs ← scrubUnderscores s.data ' '
  let cs1 := cs.dropWhile isPyWs
  match cs1 with
  | '(' :: br =>
    let (x, y, r) ← complexCore (br.dropWhile isPyWs)
    match r.dropWhile isPyWs with
    | ')' :: r2 => if (r2.dropWhile isPyWs).isEmpty then some (x, y) else none
    | _ => none
  | _ =>
    let (x, y, r) ← complexCore cs1
    if (r.dropWhile isPyWs).isEmpty then some (x, y) else none

/-- `re.match(r'([XYZ])(\d+)', op)` (hamlib_utils.py:106): an anchored,
non-exhaustive match — the token must start with `X`, `Y` or `Z` followed by at
least one digit; group 2 is the maximal leading digit run and any trailing
characters are ignored.  Returns (letter, `int(group 2)`). -/
def tokenMatch (op : String) : Option (Char × Nat) :=
  match op.data with
  | c :: rest =>
    if c == 'X' || c == 'Y' || c == 'Z' then
      let ds := rest.takeWhile Char.isDigit
      if ds.isEmpty then none else some (c, digitsVal ds)
    else none
  | [] => none

/-- One iteration of the operator-token loop (hamlib_utils.py:105-110):
record `pauli_dict[index] = letter` on a `([XYZ])(\d+)` match, skip otherwise. -/
def pauliStep (pauli_dict : List (Nat × Char)) (op : String) : List (Nat × Char) :=
  match tokenMatch op with
  | some p => pyDictSet pauli_dict p.2 p.1
  | none => pauli_dict

/-- The inner loop of the Term Parser (hamlib_utils.py:103-110): fold the
whitespace-separated operator tokens into `pauli_dict`. -/
def buildPauliDict (ops_list : List String) : List (Nat × Char) :=
  ops_list.foldl pauliStep []

/-- The per-term loop of `parse_hamiltonian_to_sparsepauliop`
(hamlib_utils.py:100-112): for each regex match, `complex(coeff.strip())` —
whose failure raises and aborts the whole parse (`none`) — then the operator
token fold; results are collected in match order. -/
def parseTermsLoop :
    List (String × String) → Option (List (List (Nat × Char) × (PyFloat × PyFloat)))
  | [] => some []
  | (coeff, ops) :: rest =>
    match pyComplex? (pyStrip coeff) with
    | none => none
    | some c =>
      match parseTermsLoop rest with
      | some l => some ((buildPauliDict (pySplitWs ops), c) :: l)
      | none => none

/-- `parse_hamiltonian_to_sparsepauliop` (hamlib_utils.py:82-114): find all
`\(([^)]+)\)\s*\[(.*?)\]` matches and turn each into an (operator-map,
coefficient) pair; `none` models the `ValueError` raised by `complex()` on a
malformed coefficient. -/
def parse_hamiltonian_to_sparsepauliop (data : String) :
    Option (List (List (Nat × Char) × (PyFloat × PyFloat))) :=
  parseTermsLoop (findTerms data)

/-- `max(pauli_dict.keys())` (hamlib_utils.py:130): with `Nat` keys, folding
`max` from 0 equals the Python maximum on every non-empty dict (and the source
only calls it on non-empty dicts). -/
def maxKey (pauli_dict : List (Nat × Char)) : Nat :=
  pauli_dict.foldl (fun a p => max a p.1) 0

/-- One iteration of the `determine_qubit_count` loop (hamlib_utils.py:128-132):
for a non-empty operator-map, replace the running maximum by `max(keys)` when
it is larger. -/
def qcStep (max_qubit : Nat) (t : List (Nat × Char) × (PyFloat × PyFloat)) : Nat :=
  if t.1.isEmpty then max_qubit
  else if maxKey t.1 > max_qubit then maxKey t.1 else max_qubit

/-- `determine_qubit_count` (hamlib_utils.py:116-133): starting from 0, fold
the per-term maximum over all terms, then add 1 ("since qubit indices start
at 0"). -/
def determine_qubit_count (terms : List (List (Nat × Char) × (PyFloat × PyFloat))) : Nat :=
  terms.foldl qcStep 0 + 1

/-- `is_numeric` (hamlib_utils.py:250-258): whether `float(value)` succeeds;
a parse failure is reported as `false`, never propagated. -/
def is_numeric (value : String) : Bool :=
  (pyFloat? value).isSome

/-- Lexicographic comparison of strings by code point, Python `str.__lt__`. -/
def strLtB : List Char → List Char → Bool
  | [], [] => false
  | [], _ :: _ => true
  | _ :: _, [] => false
  | a :: as, b :: bs =>
    if a.toNat < b.toNat then true
    else if b.toNat < a.toNat then false
    else strLtB as bs

/-- Comparison of two Python floats with `<` (IEEE semantics: nan is unordered,
infinities compare as expected, finite values exactly). -/
def pyFloatLt : PyFloat → PyFloat → Bool
  | .nan, _ => false
  | _, .nan => false
  | .negInf, .negInf => false
  | .negInf, _ => true
  | _, .negInf => false
  | .posInf, _ => false
  | _, .posInf => true
  | .finite a, .finite b => decide (a < b)

/-- The sort key of hamlib_utils.py:247,
`lambda x: (is_numeric(x), float(x) if is_numeric(x) else x)`, compared with
`<` as Python compares the key tuples: first the booleans (`False < True`, so
non-numeric strings order before numeric ones), then — only between equal
booleans, so no mixed-type comparison ever happens — the float values or the
strings. -/
def sortKeyLt (x y : String) : Bool :=
  match pyFloat? x, pyFloat? y with
  | none, some _ => true
  | none, none => strLtB x.data y.data
  | some _, none => false
  | some a, some b => pyFloatLt a b

/-- Stable insertion of `x` into an already sorted list: `x` goes in front of
the first element not strictly below it, so equal elements keep their original
relative order. -/
def pyInsert {α : Type} (lt : α → α → Bool) (x : α) : List α → List α
  | [] => [x]
  | y :: ys => if lt y x then y :: pyInsert lt x ys else x :: y :: ys

/-- Stable sort by a strict comparison, the behaviour of Python `sorted` with a
key function (for keys forming a strict weak order, as here on nan-free data). -/
def pySorted {α : Type} (lt : α → α → Bool) : List α → List α
  | [] => []
  | x :: xs => pyInsert lt x (pySorted lt xs)

/-- `sorted(values, key=lambda x: (is_numeric(x), float(x) if is_numeric(x) else x))`
(hamlib_utils.py:247), the value ordering of the printed variable-range report. -/
def sorted_values (values : List String) : List String :=
  pySorted sortKeyLt values

/-- `parse_instance_variables` (hamlib_utils.py:260-278): split the record name
on `_`; every segment containing `-` is split at its first `-` into a variable
name and the (entire) remaining value and assigned into the output dict;
segments without `-` are ignored. -/
def parse_instance_variables (instance_name : String) : List (String × String) :=
  (splitOnCharAux instance_name.data '_' []).foldl (fun vars part =>
    match part.dropWhile (fun c => !(c == '-')) with
    | [] => vars
    | _ :: valCs =>
      pyDictSet vars (String.mk (part.takeWhile (fun c => !(c == '-')))) (String.mk valCs))
    []

/-- Python `set.add` on the insertion-ordered model of a set. -/
def setAdd (s : List String) (v : String) : List String :=
  if s.contains v then s else s ++ [v]

/-- Lines 234-236 of hamlib_utils.py: ensure `var` has an entry (an empty set
on first sight) and add `val` to it. -/
def addVarVal : List (String × List String) → String → String → List (String × List String)
  | [], var, val => [(var, [val])]
  | (k, vs) :: rest, var, val =>
    if k = var then (k, setAdd vs val) :: rest else (k, vs) :: addVarVal rest var val

/-- `item.split(':')[0] if ':' in item else item` (hamlib_utils.py:229). -/
def instanceNameOf (item : String) : String :=
  if item.data.any (fun c => c == ':') then
    match splitOnCharAux item.data ':' [] with
    | s :: _ => String.mk s
    | [] => item
  else item

/-- The key loop of `extract_variable_ranges` (hamlib_utils.py:226-236) over
the child keys of one backing file: parse each instance name, apply the
optional fixed-variable filter (`variables.get(fixed) == value`), and
accumulate every (variable, value) pair of the surviving records. -/
def accumKeys (fixed : Option (String × String)) (keys : List String) :
    List (String × List String) :=
  keys.foldl (fun variable_values item =>
    let vars := parse_instance_variables (instanceNameOf item)
    let keep := match fixed with
                | none => true
                | some fv => pyDictGet? vars fv.1 == some fv.2
    if keep then
      vars.foldl (fun acc p => addVarVal acc p.1 p.2) variable_values
    else variable_values) []

/-- One entry of the `file_input` loop (hamlib_utils.py:212-236).  `fileKeys`
is the external collaborator "list child keys of a group" (`h5py.File(...)
.keys()`), injected as a function from file path to key list.  `none` models
the `IndexError` on an entry with fewer than two `:`-separated parts and the
`ValueError` when the fixed part does not unpack as `name=value`. -/
def processEntry (fileKeys : String → List String) (entry : String) :
    Option (String × List (String × List String)) :=
  match splitOnCharAux entry.data ':' [] with
  | p0 :: p1 :: rest =>
    match rest with
    | [] => some (String.mk p0, accumKeys none (fileKeys (String.mk p1)))
    | p2 :: _ =>
      match splitOnCharAux p2 '=' [] with
      | [fv, fval] =>
        some (String.mk p0,
          accumKeys (some (String.mk fv, String.mk fval)) (fileKeys (String.mk p1)))
      | _ => none
  | _ => none

/-- The `results` accumulation of `extract_variable_ranges`
(hamlib_utils.py:210-240): process the entries in order, storing each
non-empty per-dataset variable map under its dataset name. -/
def rangesLoop (fileKeys : String → List String) :
    List String → List (String × List (String × List String)) →
    Option (List (String × List (String × List String)))
  | [], results => some results
  | entry :: rest, results =>
    match processEntry fileKeys entry with
    | none => none
    | some (fname, vv) =>
      rangesLoop fileKeys rest
        (if vv.isEmpty then results else pyDictSet results fname vv)

/-- The local variable `results` of `extract_variable_ranges`
(hamlib_utils.py:198-248) after the processing loop — the mapping the
function's docstring documents as its return value, and the data the function
prints. -/
def extract_variable_ranges_results (fileKeys : String → List String)
    (file_input : List String) :
    Option (List (String × List (String × List String))) :=
  rangesLoop fileKeys file_input []

/-- The value `extract_variable_ranges` actually returns to its caller: the
source function has no return statement, so after computing and printing
`results` it falls off the end and the caller receives Python `None`
(modelled as the inner `none`); the outer `Option` models a raised exception. -/
def extract_variable_ranges (fileKeys : String → List String)
    (file_input : List String) :
    Option (Option (List (String × List (String × List String)))) :=
  (extract_variable_ranges_results fileKeys file_input).map (fun _ => none)

/-- Left-biased choice on `Option`, used to state how dict lookups compose. -/
def optOr {α : Type} (a b : Option α) : Option α :=
  match a with
  | some x => some x
  | none => b

/-- Reference value for the overwrite semantics of the Term Parser: the Pauli
letter of the LAST operator token whose `([XYZ])(\d+)` match records qubit
index `i` (scanning the reversed token list for the first such match). -/
def lastMatchLetter (ops_list : List String) (i : Nat) : Option Char :=
  ops_list.reverse.findSome? (fun t =>
    match tokenMatch t with
    | some p => if p.2 = i then some p.1 else none
    | none => none)

/-- Follows the spec's words for claim C7, not the source: whether a token
matches `<Letter><Index>` in its entirety — a letter in {X,Y,Z} followed by a
digit string making up the whole rest of the token. -/
def specFullTokenMatch (t : String) : Bool :=
  match t.data with
  | c :: rest =>
    (c == 'X' || c == 'Y' || c == 'Z') && !rest.isEmpty && rest.all Char.isDigit
  | [] => false

/-- Child-key collaborator for the claim C2 input: a single backing file
"f.hdf5" holding the single record "a_size-2". -/
def exKeysC2 : String → List String := fun p =>
  if p = "f.hdf5" then ["a_size-2"] else []

/-- Child-key collaborator for the claim C5 input: a single backing file
"f.hdf5" holding the three records of the spec's aggregation example. -/
def exKeysC5 : String → List String := fun p =>
  if p = "f.hdf5" then ["a_size-2", "a_size-4", "a_graph-ring_size-2"] else []

theorem optOr_assoc {α : Type} (a b c : Option α) :
    optOr (optOr a b) c = optOr a (optOr b c) := by
  cases a <;> rfl

theorem optOr_none {α : Type} (a : Option α) : optOr a none = a := by
  cases a <;> rfl

theorem findSome_append {α β : Type} (f : α → Option β) (l1 l2 : List α) :
    List.findSome? f (l1 ++ l2) = optOr (List.findSome? f l1) (List.findSome? f l2) := by
  induction l1 with
  | nil => simp [optOr]
  | cons a l ih =>
    cases h : f a <;> simp [List.findSome?_cons, h, ih, optOr]

theorem pyDictGet_pyDictSet {κ α : Type} [DecidableEq κ]
    (d : List (κ × α)) (k : κ) (v : α) (i : κ) :
    pyDictGet? (pyDictSet d k v) i = if i = k then some v else pyDictGet? d i := by
  induction d with
  | nil =>
    by_cases h : i = k
    · subst h; simp [pyDictSet, pyDictGet?]
    · have h2 : ¬ k = i := fun hh => h hh.symm
      simp [pyDictSet, pyDictGet?, h, h2]
  | cons p rest ih =>
    by_cases hpk : p.1 = k
    · by_cases hik : i = k
      · subst hik; simp [pyDictSet, pyDictGet?, hpk]
      · have h2 : ¬ k = i := fun hh => hik hh.symm
        simp [pyDictSet, pyDictGet?, hpk, hik, h2]
    · by_cases hpi : p.1 = i
      · have hik : ¬ i = k := fun hh => hpk (hpi.trans hh)
        simp [pyDictSet, pyDictGet?, hpk, hpi, hik]
      · simp [pyDictSet, pyDictGet?, hpk, hpi, ih]

theorem mem_keys_pyDictSet {κ α : Type} [DecidableEq κ]
    (d : List (κ × α)) (k : κ) (v : α) (j : κ) :
    j ∈ (pyDictSet d k v).map Prod.fst ↔ j ∈ d.map Prod.fst ∨ j = k := by
  induction d with
  | nil => simp [pyDictSet]
  | cons p rest ih =>
    by_cases hpk : p.1 = k
    · subst hpk; by_cases hj : j = p.1 <;> simp [pyDictSet, hj]
    · simp [pyDictSet, hpk, ih, or_assoc]

theorem nodup_keys_pyDictSet {κ α : Type} [DecidableEq κ]
    (d : List (κ × α)) (k : κ) (v : α)
    (h : (d.map Prod.fst).Nodup) : ((pyDictSet d k v).map Prod.fst).Nodup := by
  induction d with
  | nil => simp [pyDictSet]
  | cons p rest ih =>
    simp only [List.map_cons, List.nodup_cons] at h
    by_cases hpk : p.1 = k
    · simp only [pyDictSet, if_pos hpk, List.map_cons, List.nodup_cons]
      exact ⟨h.1, h.2⟩
    · simp only [pyDictSet, if_neg hpk, List.map_cons, List.nodup_cons]
      refine ⟨?_, ih h.2⟩
      intro hmem
      rcases (mem_keys_pyDictSet rest k v p.1).mp hmem with h1 | h1
      · exact h.1 h1
      · exact hpk h1

theorem pyDictGet_pauliStep (d : List (Nat × Char)) (t : String) (i : Nat) :
    pyDictGet? (pauliStep d t) i =
      optOr (match tokenMatch t with
             | some p => if p.2 = i then some p.1 else none
             | none => none)
        (pyDictGet? d i) := by
  cases h : tokenMatch t with
  | none => simp [pauliStep, h, optOr]
  | some p =>
    by_cases hpi : p.2 = i
    · subst hpi
      simp [pauliStep, h, optOr, pyDictGet_pyDictSet]
    · have h2 : ¬ i = p.2 := fun hh => hpi hh.symm
      simp [pauliStep, h, optOr, pyDictGet_pyDictSet, hpi, h2]

theorem foldl_pauliStep_lookup (ops_list : List String)
    (d : List (Nat × Char)) (i : Nat) :
    pyDictGet? (ops_list.foldl pauliStep d) i =
      optOr (lastMatchLetter ops_list i) (pyDictGet? d i) := by
  induction ops_list generalizing d with
  | nil => simp [lastMatchLetter, optOr]
  | cons t rest ih =>
    have hrev : lastMatchLetter (t :: rest) i =
        optOr (lastMatchLetter rest i)
          (match tokenMatch t with
           | some p => if p.2 = i then some p.1 else none
           | none => none) := by
      simp only [lastMatchLetter, List.reverse_cons, findSome_append]
      cases h : tokenMatch t with
      | none => simp [List.findSome?, h]
      | some p => by_cases hpi : p.2 = i <;> simp [List.findSome?, h, hpi, optOr_none]
    calc pyDictGet? ((t :: rest).foldl pauliStep d) i
        = pyDictGet? (rest.foldl pauliStep (pauliStep d t)) i := rfl
      _ = optOr (lastMatchLetter rest i) (pyDictGet? (pauliStep d t) i) := ih _
      _ = optOr (lastMatchLetter (t :: rest) i) (pyDictGet? d i) := by
          rw [hrev, optOr_assoc, pyDictGet_pauliStep]

theorem foldl_pauliStep_nodup (ops_list : List String) (d : List (Nat × Char))
    (h : (d.map Prod.fst).Nodup) :
    ((ops_list.foldl pauliStep d).map Prod.fst).Nodup := by
  induction ops_list generalizing d with
  | nil => exact h
  | cons t rest ih =>
    refine ih _ ?_
    cases ht : tokenMatch t with
    | none => simpa [pauliStep, ht] using h
    | some p =>
      simp only [pauliStep, ht]
      exact nodup_keys_pyDictSet d p.2 p.1 h

theorem buildPauliDict_filter_aux (ops_list : List String) (d : List (Nat × Char)) :
    ops_list.foldl pauliStep d =
      (ops_list.filter (fun t => (tokenMatch t).isSome)).foldl pauliStep d := by
  induction ops_list generalizing d with
  | nil => rfl
  | cons t rest ih =>
    cases ht : tokenMatch t with
    | none =>
      have hstep : pauliStep d t = d := by simp [pauliStep, ht]
      simp [List.filter_cons, ht, hstep, ih]
    | some p =>
      simp [List.filter_cons, ht, ih]

theorem parseTermsLoop_eq_none_iff (l : List (String × String)) :
    parseTermsLoop l = none ↔
      ∃ coeff ops, (coeff, ops) ∈ l ∧ pyComplex? (pyStrip coeff) = none := by
  induction l with
  | nil => simp [parseTermsLoop]
  | cons p rest ih =>
    obtain ⟨coeff, ops⟩ := p
    constructor
    · intro h
      cases hc : pyComplex? (pyStrip coeff) with
      | none => exact ⟨coeff, ops, by simp, hc⟩
      | some c =>
        cases hr : parseTermsLoop rest with
        | none =>
          obtain ⟨c2, o2, hmem, hc2⟩ := ih.mp hr
          exact ⟨c2, o2, List.mem_cons_of_mem _ hmem, hc2⟩
        | some lres =>
          exfalso
          simp [parseTermsLoop, hc, hr] at h
    · rintro ⟨c2, o2, hmem, hc2⟩
      rcases List.mem_cons.mp hmem with heq | hmem2
      · cases heq
        simp [parseTermsLoop, hc2]
      · cases hc : pyComplex? (pyStrip coeff) with
        | none => simp [parseTermsLoop, hc]
        | some c =>
          have : parseTermsLoop rest = none := ih.mpr ⟨c2, o2, hmem2, hc2⟩
          simp [parseTermsLoop, hc, this]

theorem foldr_max_base (l : List Nat) (b : Nat) :
    l.foldr max b = max (l.foldr max 0) b := by
  induction l with
  | nil => simp
  | cons a l ih =>
    simp only [List.foldr_cons]
    rw [ih]
    omega

theorem foldl_max_keys (pd : List (Nat × Char)) (a : Nat) :
    pd.foldl (fun x p => max x p.1) a =
      max a ((pd.map Prod.fst).foldr max 0) := by
  induction pd generalizing a with
  | nil => simp
  | cons p rest ih =>
    simp only [List.foldl_cons, List.map_cons, List.foldr_cons]
    rw [ih, foldr_max_base]
    omega

theorem qcStep_eq (mq : Nat) (t : List (Nat × Char) × (PyFloat × PyFloat)) :
    qcStep mq t = max mq ((t.1.map Prod.fst).foldr max 0) := by
  cases ht : t.1 with
  | nil => simp [qcStep, ht]
  | cons p rest =>
    have hmk : maxKey (p :: rest) = ((p :: rest).map Prod.fst).foldr max 0 := by
      unfold maxKey
      rw [foldl_max_keys]
      omega
    simp only [qcStep, ht, List.isEmpty_cons, Bool.false_eq_true, if_false, hmk]
    split <;> omega

theorem dqc_aux (terms : List (List (Nat × Char) × (PyFloat × PyFloat))) (mq : Nat) :
    terms.foldl qcStep mq =
      max mq (terms.foldr (fun t acc => (t.1.map Prod.fst).foldr max acc) 0) := by
  induction terms generalizing mq with
  | nil => simp
  | cons t rest ih =>
    simp only [List.foldl_cons, List.foldr_cons]
    rw [ih, qcStep_eq,
      foldr_max_base (t.1.map Prod.fst)
        (rest.foldr (fun t acc => (t.1.map Prod.fst).foldr max acc) 0)]
    omega

/-- Claim C1 counterexample: the claim says `qubit_count` returns 0 when no
term has any recorded operator, but `determine_qubit_count` returns 1 on the
empty list and on a list holding a single identity term. -/
theorem claim_C1_counterexample :
    determine_qubit_count [] ≠ 0 ∧
    determine_qubit_count [([], (PyFloat.finite 1, PyFloat.finite 0))] ≠ 0 := by
  decide

/-- Claim C1 (amended): for every Sparse Operator List, `determine_qubit_count`
returns 1 plus the maximum qubit index observed across all terms' operator
maps, taking that maximum to be 0 when no operator is recorded anywhere — so it
returns 1, not 0, for the empty and the all-identity list. -/
theorem claim_C1_amended (terms : List (List (Nat × Char) × (PyFloat × PyFloat))) :
    determine_qubit_count terms =
      terms.foldr (fun t acc => (t.1.map Prod.fst).foldr max acc) 0 + 1 := by
  unfold determine_qubit_count
  rw [dqc_aux]
  omega

/-- Claim C1 witness: the amended statement evaluated on a concrete list with
sparse, non-contiguous indices. -/
theorem claim_C1_witness :
    determine_qubit_count
      [([(0, 'X'), (5, 'Z')], (PyFloat.finite 1, PyFloat.finite 0)),
       ([(2, 'Y')], (PyFloat.finite 1, PyFloat.finite 0))] = 6 :=
  (claim_C1_amended _).trans (by decide)

/-- Claim C2 (code bug evidence): on the specification list `["a:f.hdf5"]`
with backing records `["a_size-2"]`, the function's local `results` is the
documented Variable Range Report `{"a": {"size": {"2"}}}`, yet the value
actually returned to the caller is Python `None` — the source prints the
report but has no return statement, contradicting its own docstring. -/
theorem claim_C2_code_bug :
    extract_variable_ranges exKeysC2 ["a:f.hdf5"] = some none ∧
    extract_variable_ranges_results exKeysC2 ["a:f.hdf5"] =
      some [("a", [("size", ["2"])])] :=
  ⟨by decide, by decide⟩

/-- Claim C3 counterexample: the claim says the instance name
"graph-1D-grid-pbc_size-4" parses with value "1D" for "graph"; the source
keeps the whole remainder after the first hyphen. -/
theorem claim_C3_counterexample :
    pyDictGet? (parse_instance_variables "graph-1D-grid-pbc_size-4") "graph" ≠
      some "1D" := by
  decide

/-- Claim C3 (amended): each `_`-separated segment containing a hyphen is
split at its FIRST hyphen into (variable-name, value) where the value is the
ENTIRE remainder of the segment, so "graph-1D-grid-pbc_size-4" parses to
{"graph": "1D-grid-pbc", "size": "4"}. -/
theorem claim_C3_amended :
    parse_instance_variables "graph-1D-grid-pbc_size-4" =
      [("graph", "1D-grid-pbc"), ("size", "4")] := by
  decide

/-- Claim C4 counterexample: the claim says {"4","1D","2"} sorts to
["2","4","1D"] (numeric first); the source's key places `False` (non-numeric)
before `True` (numeric), so it does not. -/
theorem claim_C4_counterexample :
    sorted_values ["4", "1D", "2"] ≠ ["2", "4", "1D"] := by
  decide

/-- Claim C4 (amended): the value ordering places NON-numeric values first in
lexical order, followed by numeric values in ascending numeric order — Python
orders the boolean `is_numeric` key `False < True`; in particular the value
set {"4","1D","2"} sorts to ["1D","2","4"] whatever order the set enumerates
its elements in. -/
theorem claim_C4_amended :
    sorted_values ["4", "1D", "2"] = ["1D", "2", "4"] ∧
    sorted_values ["4", "2", "1D"] = ["1D", "2", "4"] ∧
    sorted_values ["1D", "4", "2"] = ["1D", "2", "4"] ∧
    sorted_values ["1D", "2", "4"] = ["1D", "2", "4"] ∧
    sorted_values ["2", "4", "1D"] = ["1D", "2", "4"] ∧
    sorted_values ["2", "1D", "4"] = ["1D", "2", "4"] := by
  decide

/-- Claim C5 counterexample: with records ["a_size-2","a_size-4",
"a_graph-ring_size-2"] under dataset "a" and fixed constraint graph=ring, the
aggregated report is not exactly {"size": ["2"]} — the fixed variable itself
is accumulated too. -/
theorem claim_C5_counterexample :
    extract_variable_ranges_results exKeysC5 ["a:f.hdf5:graph=ring"] ≠
      some [("a", [("size", ["2"])])] := by
  decide

/-- Claim C5 (amended): only the record satisfying graph=ring contributes, but
every (variable, value) pair of that record is accumulated, including the
fixed variable, yielding {"graph": ["ring"], "size": ["2"]}. -/
theorem claim_C5_amended :
    extract_variable_ranges_results exKeysC5 ["a:f.hdf5:graph=ring"] =
      some [("a", [("graph", ["ring"]), ("size", ["2"])])] := by
  decide

/-- Claim C6: `parse_hamiltonian_to_sparsepauliop` fails (the `ValueError` of
`complex()` propagates to the caller) if and only if some matched term's
stripped coefficient fails to parse as a complex number; in particular a
malformed coefficient is never silently coerced. -/
theorem claim_C6 (data : String) :
    parse_hamiltonian_to_sparsepauliop data = none ↔
      ∃ coeff ops, (coeff, ops) ∈ findTerms data ∧
        pyComplex? (pyStrip coeff) = none := by
  unfold parse_hamiltonian_to_sparsepauliop
  exact parseTermsLoop_eq_none_iff (findTerms data)

/-- Claim C6 witness: the equivalence applied at a concrete malformed input. -/
theorem claim_C6_witness :
    parse_hamiltonian_to_sparsepauliop "(zz) [X0]" = none :=
  (claim_C6 "(zz) [X0]").mpr ⟨"zz", "X0", by decide, by decide⟩

/-- Claim C7 counterexample: the token "X1Y2" does not match `<Letter><Index>`
as a whole, yet it is not skipped — the source's anchored, non-exhaustive
`re.match` records operator-map[1] = X from its prefix. -/
theorem claim_C7_counterexample :
    specFullTokenMatch "X1Y2" = false ∧
    buildPauliDict ["X1Y2"] = [(1, 'X')] ∧
    buildPauliDict ["X1Y2"] ≠ [] := by
  decide

/-- Claim C7 (amended): a token is recorded exactly when it STARTS with a
letter in {X,Y,Z} followed by at least one digit; the recorded index is the
maximal leading digit run and trailing characters are ignored.  Tokens with no
such leading match contribute nothing: removing them leaves the operator-map
unchanged, and appending a token with a match `(letter, index)` performs the
dict assignment `operator-map[index] = letter`. -/
theorem claim_C7_amended :
    (∀ ops_list : List String,
        buildPauliDict ops_list =
          buildPauliDict (ops_list.filter (fun t => (tokenMatch t).isSome))) ∧
    (∀ (ops_list : List String) (t : String) (c : Char) (n : Nat),
        tokenMatch t = some (c, n) →
        buildPauliDict (ops_list ++ [t]) =
          pyDictSet (buildPauliDict ops_list) n c) := by
  constructor
  · intro ops_list
    unfold buildPauliDict
    exact buildPauliDict_filter_aux ops_list []
  · intro ops_list t c n h
    unfold buildPauliDict
    rw [List.foldl_append]
    simp [pauliStep, h]

/-- Claim C7 witness: the recording clause applied at a concrete token. -/
theorem claim_C7_witness :
    tokenMatch "Y1" = some ('Y', 1) ∧
    buildPauliDict (["X0"] ++ ["Y1"]) = pyDictSet (buildPauliDict ["X0"]) 1 'Y' :=
  ⟨by decide, claim_C7_amended.2 ["X0"] "Y1" 'Y' 1 (by decide)⟩

/-- Claim C8 counterexample: `normalize_if_needed` is not idempotent — the
loose blob "abc [X0]" normalizes to "(abc) [X0]", whose non-numeric
coefficient still fails the Format Detector, so a second application wraps it
again as "((abc)) [X0]". -/
theorem claim_C8_counterexample :
    normalize_if_needed (normalize_if_needed "abc [X0]") ≠
      normalize_if_needed "abc [X0]" := by
  decide

/-- Claim C8 (amended): `normalize_if_needed` is idempotent on every blob
whose one-pass result either passes the Format Detector (as every blob with
canonical numeric coefficients does) or is empty; it is not idempotent in
general, because a normalized term with a non-numeric coefficient fails the
detector and gets re-wrapped. -/
theorem claim_C8_amended (blob : String)
    (h : needs_normalization (normalize_if_needed blob) = "No" ∨
         normalize_if_needed blob = "") :
    normalize_if_needed (normalize_if_needed blob) = normalize_if_needed blob := by
  have hid : ∀ s, needs_normalization s = "No" → normalize_if_needed s = s := by
    intro s hs
    unfold normalize_if_needed
    rw [hs]
    simp
  cases h with
  | inl h2 => exact hid _ h2
  | inr h2 =>
    rw [h2]
    decide

/-- Claim C8 witness: idempotence at the canonical-coefficient blob
"1.0 [X0]", whose normalization "(1.0) [X0]" passes the detector. -/
theorem claim_C8_witness :
    normalize_if_needed (normalize_if_needed "1.0 [X0]") =
      normalize_if_needed "1.0 [X0]" :=
  claim_C8_amended "1.0 [X0]" (Or.inl (by decide))

/-- Claim C9: the Format Normalizer splits on every `+` before matching, so the
loose term "1.0+0.5j [X0]" is split apart — the fragment "1.0" has no
bracketed operator list and is dropped, and only "0.5j [X0]" is emitted as a
canonical term. -/
theorem claim_C9 :
    normalize_data_format "1.0+0.5j [X0]" = "(0.5j) [X0]" := by
  decide

/-- Claim C10: in the Term Parser the operator-map keys are unique, and the
letter stored at each qubit index is that of the LAST operator token whose
match records that index — later tokens overwrite earlier ones. -/
theorem claim_C10 (ops_list : List String) :
    ((buildPauliDict ops_list).map Prod.fst).Nodup ∧
    ∀ i : Nat, pyDictGet? (buildPauliDict ops_list) i = lastMatchLetter ops_list i := by
  constructor
  · exact foldl_pauliStep_nodup ops_list [] (by simp)
  · intro i
    have h := foldl_pauliStep_lookup ops_list [] i
    rw [pyDictGet?, optOr_none] at h
    exact h

/-- Claim C10 witness: the overwrite rule evaluated on concrete tokens that
collide on qubit index 0. -/
theorem claim_C10_witness :
    pyDictGet? (buildPauliDict ["X0", "Y0", "Z0"]) 0 = some 'Z' :=
  ((claim_C10 ["X0", "Y0", "Z0"]).2 0).trans (by decide)
